import Mathlib

/-!
Shallow embedding of the bounded-concurrency file materialization and
size-estimation utilities of
`packages/angular_devkit/build_angular/src/tools/esbuild/utils.ts`.

Modelling conventions:
* Byte buffers (`Uint8Array` / `Buffer`) are `List Nat` (each entry a byte).
* Strings of text content are `List Nat` (Unicode code points); UTF-8
  encoding/decoding (`Buffer.from(text, 'utf-8')` / `buffer.toString('utf-8')`)
  is modelled by `utf8Encode` / `utf8Decode`.
* The external SHA-256 primitive `createHash('sha256').update(x).digest('hex')`
  of `node:crypto` is an arbitrary function `H : List Nat → String` applied to
  the UTF-8 bytes of the hashed string; every theorem is parametric in it.
* Mutable `Uint8Array`s are references (`Nat` indices) into a `Store`;
  reading `contents` of a data-backed artifact reads the store, and in-place
  mutation of a buffer is `storeSet`.  This makes aliasing observable.
* Filesystem paths are lists of segments (`List String`); `path.join` is
  list append and `path.dirname` drops the last segment.
* The single-threaded cooperative concurrency of Node promises is modelled
  deterministically: each asynchronous action has a duration (`dur`) and a
  success flag (`ok`); a wave launched at time `t` settles task `tk` at
  `t + tk.dur`.  `Promise.all` resolves at the max settle time when all tasks
  succeed and rejects at the earliest settle time of a rejecting task.
-/

/-- UTF-8 encoding of a single Unicode code point (standard 1-4 byte form),
modelling what `Buffer.from(text, 'utf-8')` produces per code point. -/
def utf8EncodeChar (c : Nat) : List Nat :=
  if c < 128 then [c]
  else if c < 2048 then [192 + c / 64, 128 + c % 64]
  else if c < 65536 then [224 + c / 4096, 128 + c / 64 % 64, 128 + c % 64]
  else [240 + c / 262144, 128 + c / 4096 % 64, 128 + c / 64 % 64, 128 + c % 64]

/-- UTF-8 encoding of a string (as a list of code points). -/
def utf8Encode (text : List Nat) : List Nat :=
  (text.map utf8EncodeChar).flatten

/-- Whether a byte is a UTF-8 continuation byte. -/
def isCont (b : Nat) : Bool := 128 ≤ b && b < 192

/-- Fuel-indexed UTF-8 decoder (structural recursion on the fuel so the
definition stays kernel-computable); the fuel never runs out when it starts
at the byte count. -/
def utf8DecodeGo : Nat → List Nat → List Nat
  | 0, _ => []
  | _, [] => []
  | fuel + 1, b :: rest =>
    if b < 128 then b :: utf8DecodeGo fuel rest
    else if b < 194 then 65533 :: utf8DecodeGo fuel rest
    else if b < 224 then
      match rest with
      | c :: rest2 =>
        if isCont c then ((b - 192) * 64 + (c - 128)) :: utf8DecodeGo fuel rest2
        else 65533 :: utf8DecodeGo fuel rest
      | [] => [65533]
    else if b < 240 then
      match rest with
      | c :: d :: rest3 =>
        if isCont c && isCont d then
          ((b - 224) * 4096 + (c - 128) * 64 + (d - 128))
            :: utf8DecodeGo fuel rest3
        else 65533 :: utf8DecodeGo fuel rest
      | _ => 65533 :: utf8DecodeGo fuel rest
    else
      match rest with
      | c :: d :: e :: rest4 =>
        if isCont c && isCont d && isCont e then
          ((b - 240) * 262144 + (c - 128) * 4096 + (d - 128) * 64 + (e - 128))
            :: utf8DecodeGo fuel rest4
        else 65533 :: utf8DecodeGo fuel rest
      | _ => 65533 :: utf8DecodeGo fuel rest

/-- UTF-8 decoding of a byte list back to code points, modelling
`buffer.toString('utf-8')`; malformed sequences decode to U+FFFD (65533).
The theorems below only exercise it on valid (in fact ASCII) input. -/
def utf8Decode (bs : List Nat) : List Nat := utf8DecodeGo bs.length bs

/-- A store of mutable byte buffers; a `Uint8Array` value in the source is a
reference (index) into the store, so aliasing between objects is observable. -/
abbrev Store := List (List Nat)

/-- Read the buffer behind a reference. -/
def storeGet (s : Store) (r : Nat) : List Nat := s.getD r []

/-- In-place mutation of the buffer behind a reference (e.g. writing into the
`Uint8Array` that was passed to `createOutputFileFromData`). -/
def storeSet (s : Store) (r : Nat) (bs : List Nat) : Store := s.set r bs

/-- The artifact kind enum `BuildOutputFileType` of `bundler-context`. -/
inductive BuildOutputFileType where
  | Browser
  | Media
  | Server
  | Root
deriving DecidableEq, Repr

/-- An esbuild `OutputFile` handed to `convertOutputFile`: a path, a
(reference to a) contents buffer, and a precomputed `hash` string owned by
the external bundler. -/
structure OutputFile where
  path : String
  contentsRef : Nat
  hash : String
deriving DecidableEq, Repr

/-- The three representations a `BuildOutputFile` object can have, one per
construction path in the source:
* `fromText` stores the immutable text (`createOutputFileFromText`);
* `fromData` stores a reference to the caller's mutable buffer
  (`createOutputFileFromData`);
* `converted` stores the esbuild file's contents reference and its
  precomputed `hash` string (`convertOutputFile`). -/
inductive BuildOutputFile where
  | fromText (path : String) (text : List Nat) (type_ : BuildOutputFileType)
  | fromData (path : String) (dataRef : Nat) (type_ : BuildOutputFileType)
  | converted (path : String) (contentsRef : Nat) (hash : String)
      (type_ : BuildOutputFileType)
deriving DecidableEq, Repr

/-- Source `createOutputFileFromText(path, text, type)`. -/
def createOutputFileFromText (path : String) (text : List Nat)
    (ty : BuildOutputFileType) : BuildOutputFile :=
  .fromText path text ty

/-- Source `createOutputFileFromData(path, data, type)`; `data` is a reference
to a (possibly shared) mutable buffer. -/
def createOutputFileFromData (path : String) (dataRef : Nat)
    (ty : BuildOutputFileType) : BuildOutputFile :=
  .fromData path dataRef ty

/-- Source `convertOutputFile(file, type)`: destructures `path`, `contents`
and `hash` from the esbuild file and stores them; `hash` is copied verbatim,
`contents` stays the same buffer reference. -/
def convertOutputFile (file : OutputFile) (ty : BuildOutputFileType) :
    BuildOutputFile :=
  .converted file.path file.contentsRef file.hash ty

/-- The `path` property of a `BuildOutputFile`. -/
def BuildOutputFile.path : BuildOutputFile → String
  | .fromText p _ _ => p
  | .fromData p _ _ => p
  | .converted p _ _ _ => p

/-- The `type` property of a `BuildOutputFile`. -/
def BuildOutputFile.type : BuildOutputFile → BuildOutputFileType
  | .fromText _ _ ty => ty
  | .fromData _ _ ty => ty
  | .converted _ _ _ ty => ty

/-- The `contents` getter: text-backed artifacts encode their text on demand
(`Buffer.from(this.text, 'utf-8')`); data-backed and converted artifacts
return the shared buffer itself. -/
def BuildOutputFile.contents (s : Store) : BuildOutputFile → List Nat
  | .fromText _ t _ => utf8Encode t
  | .fromData _ r _ => storeGet s r
  | .converted _ r _ _ => storeGet s r

/-- The `text` getter: stored text for the text variant, and
`Buffer.from(data...).toString('utf-8')` for the other two. -/
def BuildOutputFile.text (s : Store) : BuildOutputFile → List Nat
  | .fromText _ t _ => t
  | .fromData _ r _ => utf8Decode (storeGet s r)
  | .converted _ r _ _ => utf8Decode (storeGet s r)

/-- The `hash` getter, parametric in the external SHA-256 hex-digest primitive
`H` (applied to the UTF-8 bytes of the hashed string, matching
`createHash('sha256').update(this.text).digest('hex')`).  The converted
variant returns the stored hash it copied from the esbuild file. -/
def BuildOutputFile.hash (H : List Nat → String) (s : Store) :
    BuildOutputFile → String
  | .fromText _ t _ => H (utf8Encode t)
  | .fromData _ r _ => H (utf8Encode (utf8Decode (storeGet s r)))
  | .converted _ _ h _ => h

/-- The `clone()` method of each variant, exactly as in the source:
the text variant rebuilds from the immutable text; the data variant calls
`createOutputFileFromData(this.path, this.contents, this.type)` where
`this.contents` is the very same buffer reference; the converted variant
calls `convertOutputFile(this, this.type)` which destructures the same
`contents` reference and `hash`. -/
def BuildOutputFile.clone : BuildOutputFile → BuildOutputFile
  | .fromText p t ty => createOutputFileFromText p t ty
  | .fromData p r ty => createOutputFileFromData p r ty
  | .converted p r h ty => convertOutputFile ⟨p, r, h⟩ ty

/-- Whether a path ends in `.js` or `.css`, modelling
`path.endsWith('.js') || path.endsWith('.css')` from
`calculateEstimatedTransferSizes`. -/
def hasWebExt (p : String) : Bool :=
  List.isSuffixOf ".js".toList p.toList || List.isSuffixOf ".css".toList p.toList

/-- JS `Map.prototype.set`: replace the value of an existing key in place,
otherwise append the new entry. -/
def mapSet : List (String × Nat) → String → Nat → List (String × Nat)
  | [], k, v => [(k, v)]
  | e :: rest, k, v => if e.1 = k then (k, v) :: rest else e :: mapSet rest k v

/-- JS `Map.prototype.get` (first matching key). -/
def mapLookup : List (String × Nat) → String → Option Nat
  | [], _ => none
  | e :: rest, k => if e.1 = k then some e.2 else mapLookup rest k

/-- The per-file loop body of `calculateEstimatedTransferSizes`, processed in
input order (completion order of the brotli callbacks is immaterial to the
map's key set and, for unique paths, to its values): non-`.js`/`.css` files
are skipped, files under 1024 bytes record their literal length, the rest are
compressed; a compression error rejects the whole operation, in which case no
map is returned.  `compress` is the external `brotliCompress` returning the
compressed byte length or an error. -/
def calcSizesGo {ε : Type} (compress : List Nat → Except ε Nat) (s : Store) :
    List OutputFile → List (String × Nat) → Except ε (List (String × Nat))
  | [], acc => .ok acc
  | f :: rest, acc =>
    if hasWebExt f.path = false then calcSizesGo compress s rest acc
    else if (storeGet s f.contentsRef).length < 1024 then
      calcSizesGo compress s rest
        (mapSet acc f.path (storeGet s f.contentsRef).length)
    else
      match compress (storeGet s f.contentsRef) with
      | .error e => .error e
      | .ok n => calcSizesGo compress s rest (mapSet acc f.path n)

/-- Source `calculateEstimatedTransferSizes(outputFiles)`: starts from the
empty map. -/
def calculateEstimatedTransferSizes {ε : Type}
    (compress : List Nat → Except ε Nat) (s : Store) (files : List OutputFile) :
    Except ε (List (String × Nat)) :=
  calcSizesGo compress s files []

/-- Source constant `MAX_CONCURRENT_WRITES = 64`. -/
def MAX_CONCURRENT_WRITES : Nat := 64

/-- Fuel-indexed grouping loop of `emitFilesToDisk`: take the next
`min n remaining` files as one group, then continue after them.  The fuel
never runs out when it starts at the list length (each step consumes at
least one element). -/
def chunkListGo (n : Nat) : Nat → List α → List (List α)
  | 0, _ => []
  | _, [] => []
  | fuel + 1, x :: xs => (x :: xs.take (n - 1)) :: chunkListGo n fuel (xs.drop (n - 1))

/-- Partition a list into contiguous chunks of size at most `n`, in order:
the wave structure of the `for (let fileIndex = 0; ...)` loop of
`emitFilesToDisk`. -/
def chunkList (n : Nat) (xs : List α) : List (List α) :=
  chunkListGo n xs.length xs

/-- One asynchronous write action of the fan-out, abstracted by its settle
delay (`dur` ticks after its wave launches) and whether it resolves (`ok`)
or rejects. -/
structure AsyncTask where
  dur : Nat
  ok : Bool
deriving DecidableEq, Repr

deriving instance DecidableEq for Except

/-- Observable trace of one `emitFilesToDisk` run: the waves whose tasks
were actually launched, the absolute settle time of every launched task
(wave by wave, aligned with `launched`), and the outcome — `.ok t` when the
whole operation resolves at time `t`, `.error t` when it rejects at time
`t`. -/
structure EmitTrace where
  launched : List (List AsyncTask)
  settleTimes : List (List Nat)
  outcome : Except Nat Nat
deriving DecidableEq, Repr

/-- Whether a wave contains a rejecting task. -/
def waveHasFailure (w : List AsyncTask) : Bool := w.any fun tk => !tk.ok

/-- Relative time at which `Promise.all` over the wave resolves when every
task resolves: the latest settle delay. -/
def waveMaxDur (w : List AsyncTask) : Nat := (w.map AsyncTask.dur).foldr max 0

/-- Relative time at which `Promise.all` over the wave rejects when some task
rejects: the earliest settle delay among the rejecting tasks (`Promise.all`
rejects as soon as the first rejection settles, without waiting for the
wave's other tasks). -/
def waveFailDur (w : List AsyncTask) : Nat :=
  match (w.filter fun tk => !tk.ok).map AsyncTask.dur with
  | [] => 0
  | d :: ds => ds.foldr min d

/-- Deterministic timed semantics of the wave loop of `emitFilesToDisk`:
waves run strictly in sequence; a wave launched at time `t` settles task
`tk` at `t + tk.dur`; `await Promise.all(actions)` advances the clock to the
latest settle time on success and rejects at the earliest rejecting settle
time on failure, after which no further wave is launched. -/
def runWavesTimed (t : Nat) : List (List AsyncTask) → EmitTrace
  | [] => ⟨[], [], .ok t⟩
  | w :: ws =>
    if waveHasFailure w then
      ⟨[w], [w.map fun tk => t + tk.dur], .error (t + waveFailDur w)⟩
    else
      let r := runWavesTimed (t + waveMaxDur w) ws
      ⟨w :: r.launched, (w.map fun tk => t + tk.dur) :: r.settleTimes, r.outcome⟩

/-- Source `emitFilesToDisk(files, writeFileCallback)`, with each file's
callback behaviour abstracted as an `AsyncTask`: groups of
`MAX_CONCURRENT_WRITES` are launched and awaited in order. -/
def emitFilesToDisk (tasks : List AsyncTask) : EmitTrace :=
  runWavesTimed 0 (chunkList MAX_CONCURRENT_WRITES tasks)

/-- Decidable check of the claim that every launched non-rejecting task
settles no later than the time the operation reports failure. -/
def claimSettleCheck (tr : EmitTrace) : Bool :=
  match tr.outcome with
  | .ok _ => true
  | .error T =>
    (tr.launched.zip tr.settleTimes).all fun p =>
      (p.1.zip p.2).all fun q => !q.1.ok || decide (q.2 ≤ T)

/-- The `{ base, browser, media, server }` fields destructured from
`NormalizedOutputOptions` by `writeResultFiles`, as segment paths. -/
structure NormalizedOutputOptions where
  base : List String
  browser : List String
  media : List String
  server : List String
deriving DecidableEq, Repr

/-- An asset record `{ source, destination }` of `BuildOutputAsset`. -/
structure BuildOutputAsset where
  source : String
  destination : String
deriving DecidableEq, Repr

/-- Split a relative slash-separated path string into its segments. -/
def splitSegsAux : List Char → List Char → List (List Char)
  | [], acc => [acc.reverse]
  | c :: cs, acc =>
    if c = '/' then acc.reverse :: splitSegsAux cs [] else splitSegsAux cs (c :: acc)

/-- Segment view of a relative path string (forward-slash separated). -/
def splitPath (p : String) : List String :=
  (splitSegsAux p.toList []).map List.asString

/-- Node `path.dirname` on a segment path: drop the final (file) segment. -/
def pathDirname (segs : List String) : List String := segs.dropLast

/-- The `switch (file.type)` of the artifact callback in `writeResultFiles`:
`Browser` and `Media` both fall through to the `browser` directory, `Server`
to the `server` directory, and `Root` to `''` (the base directory itself). -/
def resolveOutputDir (opts : NormalizedOutputOptions) :
    BuildOutputFileType → List String
  | .Browser => opts.browser
  | .Media => opts.browser
  | .Server => opts.server
  | .Root => []

/-- `destPath = path.join(outputDir, file.path)` for an artifact. -/
def artifactDestPath (opts : NormalizedOutputOptions) (f : BuildOutputFile) :
    List String :=
  resolveOutputDir opts f.type ++ splitPath f.path

/-- `destPath = path.join(browser, destination)` for an asset copy record. -/
def assetDestPath (opts : NormalizedOutputOptions) (a : BuildOutputAsset) :
    List String :=
  opts.browser ++ splitPath a.destination

/-- The containing directories handed to `ensureDirectoryExists`, one per
file, grouped into the waves of `writeResultFiles`: first the artifact
waves, then (only when assets are present, matching `if (assetFiles?.length)`)
the asset-copy waves. -/
def writeDirSchedule (opts : NormalizedOutputOptions)
    (outputFiles : List BuildOutputFile) (assetFiles : List BuildOutputAsset) :
    List (List (List String)) :=
  chunkList MAX_CONCURRENT_WRITES
      (outputFiles.map fun f => pathDirname (artifactDestPath opts f))
    ++ (if assetFiles.isEmpty then []
        else chunkList MAX_CONCURRENT_WRITES
          (assetFiles.map fun a => pathDirname (assetDestPath opts a)))

/-- The `fs.mkdir` calls issued by `ensureDirectoryExists` over the waves of
one `writeResultFiles` invocation.  Within a wave every callback performs its
synchronous `directoryExists.has(basePath)` check before any `await fs.mkdir`
of that wave completes (the `directoryExists.add` happens only after the
awaited `mkdir` resolves), so every file of the wave whose directory was
uncached at wave launch issues its own `mkdir`; all of the wave's additions
are visible to later waves because `Promise.all` is awaited between waves. -/
def mkdirCallsFrom : Finset (List String) → List (List (List String)) →
    List (List String)
  | _, [] => []
  | cache, w :: ws =>
    w.filter (fun d => decide (d ∉ cache)) ++ mkdirCallsFrom (cache ∪ w.toFinset) ws

/-- The sequence of `fs.mkdir` calls of one `writeResultFiles` invocation:
the `directoryExists` cache starts empty each call. -/
def writeResultFilesMkdirCalls (opts : NormalizedOutputOptions)
    (outputFiles : List BuildOutputFile) (assetFiles : List BuildOutputAsset) :
    List (List String) :=
  mkdirCallsFrom ∅ (writeDirSchedule opts outputFiles assetFiles)

/-- One file-system job of `writeResultFiles`: write an artifact or copy an
asset. -/
inductive WriteOp where
  | emitFile (f : BuildOutputFile)
  | copyAsset (a : BuildOutputAsset)
deriving DecidableEq, Repr

/-- The waves of file operations performed by one `writeResultFiles`
invocation: artifacts are fanned out by `emitFilesToDisk` first, then
(when present) the asset copies by a second `emitFilesToDisk`, both with
limit `MAX_CONCURRENT_WRITES`. -/
def writeOpSchedule (outputFiles : List BuildOutputFile)
    (assetFiles : List BuildOutputAsset) : List (List WriteOp) :=
  chunkList MAX_CONCURRENT_WRITES (outputFiles.map WriteOp.emitFile)
    ++ (if assetFiles.isEmpty then []
        else chunkList MAX_CONCURRENT_WRITES (assetFiles.map WriteOp.copyAsset))

theorem utf8Encode_ascii {t : List Nat} (h : ∀ c ∈ t, c < 128) :
    utf8Encode t = t := by
  induction t with
  | nil => rfl
  | cons c cs ih =>
    have hc : c < 128 := h c (List.mem_cons_self _ _)
    show (List.map utf8EncodeChar (c :: cs)).flatten = c :: cs
    rw [List.map_cons, List.flatten_cons, utf8EncodeChar, if_pos hc]
    simpa using ih fun x hx => h x (List.mem_cons_of_mem _ hx)

theorem utf8DecodeGo_ascii :
    ∀ (fuel : Nat) (bs : List Nat), bs.length ≤ fuel →
      (∀ b ∈ bs, b < 128) → utf8DecodeGo fuel bs = bs := by
  intro fuel
  induction fuel with
  | zero =>
    intro bs h1 _
    cases bs with
    | nil => rfl
    | cons b rest => simp at h1
  | succ f ih =>
    intro bs h1 h2
    cases bs with
    | nil => rfl
    | cons b rest =>
      have hb : b < 128 := h2 b (List.mem_cons_self _ _)
      show (if b < 128 then b :: utf8DecodeGo f rest else _) = b :: rest
      rw [if_pos hb,
        ih rest (by simpa using Nat.le_of_succ_le_succ h1)
          fun x hx => h2 x (List.mem_cons_of_mem _ hx)]

theorem utf8Decode_ascii {bs : List Nat} (h : ∀ b ∈ bs, b < 128) :
    utf8Decode bs = bs :=
  utf8DecodeGo_ascii bs.length bs le_rfl h

theorem chunkListGo_fuel_irrel {α : Type} (n : Nat) :
    ∀ (f1 f2 : Nat) (xs : List α), xs.length ≤ f1 → xs.length ≤ f2 →
      chunkListGo n f1 xs = chunkListGo n f2 xs := by
  intro f1
  induction f1 with
  | zero =>
    intro f2 xs h1 h2
    cases xs with
    | nil => cases f2 <;> rfl
    | cons x t => simp at h1
  | succ f ih =>
    intro f2 xs h1 h2
    cases xs with
    | nil => cases f2 <;> rfl
    | cons x t =>
      cases f2 with
      | zero => simp at h2
      | succ f2' =>
        show _ :: chunkListGo n f (t.drop (n - 1))
            = _ :: chunkListGo n f2' (t.drop (n - 1))
        have hd : (t.drop (n - 1)).length = t.length - (n - 1) :=
          List.length_drop _ _
        have ht1 : t.length ≤ f := by simpa using Nat.le_of_succ_le_succ h1
        have ht2 : t.length ≤ f2' := by simpa using Nat.le_of_succ_le_succ h2
        rw [ih f2' (t.drop (n - 1)) (by omega) (by omega)]

theorem chunkList_eq_cons {α : Type} (n : Nat) (hn : 0 < n) (xs : List α)
    (hxs : xs ≠ []) :
    chunkList n xs = xs.take n :: chunkList n (xs.drop n) := by
  cases xs with
  | nil => simp at hxs
  | cons x t =>
    cases n with
    | zero => omega
    | succ m =>
      show chunkListGo (m + 1) (t.length + 1) (x :: t) = _
      show (x :: t.take (m + 1 - 1)) :: chunkListGo (m + 1) t.length (t.drop (m + 1 - 1)) = _
      rw [List.take_succ_cons, List.drop_succ_cons]
      simp only [Nat.add_sub_cancel]
      refine congrArg (_ :: ·) ?_
      show chunkListGo (m + 1) t.length (t.drop m)
          = chunkListGo (m + 1) (t.drop m).length (t.drop m)
      exact chunkListGo_fuel_irrel (m + 1) t.length (t.drop m).length (t.drop m)
        (by simp [List.length_drop]) le_rfl

theorem chunkList_flatten {α : Type} {n : Nat} (hn : 0 < n) (xs : List α) :
    (chunkList n xs).flatten = xs := by
  have key : ∀ (m : Nat) (ys : List α), ys.length ≤ m →
      (chunkList n ys).flatten = ys := by
    intro m
    induction m with
    | zero =>
      intro ys h
      cases ys with
      | nil => rfl
      | cons y t => simp at h
    | succ m ih =>
      intro ys h
      cases ys with
      | nil => rfl
      | cons y t =>
        rw [chunkList_eq_cons n hn _ (by simp), List.flatten_cons,
          ih _ (by simp only [List.length_drop, List.length_cons] at h ⊢; omega)]
        exact List.take_append_drop n (y :: t)
  exact key xs.length xs le_rfl

theorem chunkList_mem_bounds {α : Type} {n : Nat} (hn : 0 < n) (xs : List α) :
    ∀ w ∈ chunkList n xs, 0 < w.length ∧ w.length ≤ n := by
  have key : ∀ (m : Nat) (ys : List α), ys.length ≤ m →
      ∀ w ∈ chunkList n ys, 0 < w.length ∧ w.length ≤ n := by
    intro m
    induction m with
    | zero =>
      intro ys h w hw
      cases ys with
      | nil => simp [chunkList, chunkListGo] at hw
      | cons y t => simp at h
    | succ m ih =>
      intro ys h w hw
      cases ys with
      | nil => simp [chunkList, chunkListGo] at hw
      | cons y t =>
        rw [chunkList_eq_cons n hn _ (by simp)] at hw
        rcases List.mem_cons.mp hw with h1 | h2
        · subst h1
          refine ⟨?_, by simp [List.length_take]⟩
          simp only [List.length_take, List.length_cons]
          omega
        · exact ih _ (by simp only [List.length_drop, List.length_cons] at h ⊢; omega) w h2
  exact key xs.length xs le_rfl

theorem dur_le_waveMaxDur {w : List AsyncTask} {tk : AsyncTask} (h : tk ∈ w) :
    tk.dur ≤ waveMaxDur w := by
  unfold waveMaxDur
  induction w with
  | nil => cases h
  | cons a t ih =>
    rcases List.mem_cons.mp h with h1 | h2
    · subst h1
      simp only [List.map_cons, List.foldr_cons]
      exact le_max_left _ _
    · simp only [List.map_cons, List.foldr_cons]
      exact le_trans (ih h2) (le_max_right _ _)

theorem waveHasFailure_eq_false {w : List AsyncTask}
    (h : ∀ tk ∈ w, tk.ok = true) : waveHasFailure w = false := by
  unfold waveHasFailure
  simp only [List.any_eq_false]
  intro tk htk
  simp [h tk htk]

theorem mapLookup_mapSet (m : List (String × Nat)) (k p : String) (v : Nat) :
    mapLookup (mapSet m k v) p = if p = k then some v else mapLookup m p := by
  induction m with
  | nil =>
    show (if k = p then some v else none) = _
    by_cases h : p = k
    · rw [if_pos h.symm, if_pos h]
    · rw [if_neg (fun g => h g.symm), if_neg h]; rfl
  | cons e rest ih =>
    show mapLookup (if e.1 = k then (k, v) :: rest else e :: mapSet rest k v) p = _
    by_cases he : e.1 = k
    · rw [if_pos he]
      show (if k = p then some v else mapLookup rest p) = _
      by_cases hp : p = k
      · rw [if_pos hp.symm, if_pos hp]
      · rw [if_neg (fun g => hp g.symm), if_neg hp]
        show _ = if e.1 = p then some e.2 else mapLookup rest p
        rw [if_neg (by rw [he]; exact fun g => hp g.symm)]
    · rw [if_neg he]
      show (if e.1 = p then some e.2 else mapLookup (mapSet rest k v) p) = _
      by_cases hep : e.1 = p
      · rw [if_pos hep, if_neg (fun g => he (hep.trans g))]
        show _ = if e.1 = p then some e.2 else mapLookup rest p
        rw [if_pos hep]
      · rw [if_neg hep, ih]
        by_cases hp : p = k
        · rw [if_pos hp, if_pos hp]
        · rw [if_neg hp, if_neg hp]
          show _ = if e.1 = p then some e.2 else mapLookup rest p
          rw [if_neg hep]

/-- Decidable statement that, along one run of the wave loop (cache threaded
exactly as `mkdirCallsFrom` threads it), no two files of one wave share a
directory that was still uncached when the wave launched.  Files of a wave
may freely share an already-cached directory. -/
def wavesFreshNodup : Finset (List String) → List (List (List String)) → Bool
  | _, [] => true
  | cache, w :: ws =>
    decide (w.filter (fun d => decide (d ∉ cache))).Nodup
      && wavesFreshNodup (cache ∪ w.toFinset) ws

theorem mkdirCallsFrom_length (waves : List (List (List String))) :
    ∀ cache : Finset (List String), wavesFreshNodup cache waves = true →
      (mkdirCallsFrom cache waves).length
        = (waves.flatten.toFinset \ cache).card := by
  induction waves with
  | nil => intro cache _; simp [mkdirCallsFrom]
  | cons w ws ih =>
    intro cache hnd
    rw [show wavesFreshNodup cache (w :: ws)
        = (decide (w.filter (fun d => decide (d ∉ cache))).Nodup
            && wavesFreshNodup (cache ∪ w.toFinset) ws) from rfl,
      Bool.and_eq_true, decide_eq_true_eq] at hnd
    obtain ⟨hfresh, hws⟩ := hnd
    show (w.filter (fun d => decide (d ∉ cache)) ++ _).length = _
    rw [List.length_append, ih (cache ∪ w.toFinset) hws]
    have h1 : (w.filter (fun d => decide (d ∉ cache))).length
        = (w.toFinset \ cache).card := by
      rw [← List.toFinset_card_of_nodup hfresh, List.toFinset_filter,
        Finset.sdiff_eq_filter]
      congr 1
      apply Finset.filter_congr
      intro d _
      simp
    have h2 : (w.toFinset \ cache) ∪ (ws.flatten.toFinset \ (cache ∪ w.toFinset))
        = ((w ++ ws.flatten).toFinset \ cache) := by
      ext d
      simp only [Finset.mem_union, Finset.mem_sdiff, List.toFinset_append]
      tauto
    have h3 : Disjoint (w.toFinset \ cache)
        (ws.flatten.toFinset \ (cache ∪ w.toFinset)) := by
      rw [Finset.disjoint_left]
      intro d hd1 hd2
      simp only [Finset.mem_sdiff, Finset.mem_union] at hd1 hd2
      tauto
    rw [h1, ← Finset.card_union_of_disjoint h3, h2]
    show _ = ((w :: ws).flatten.toFinset \ cache).card
    rw [List.flatten_cons]

/-- C5 counterexample: for a layout whose `media` subdirectory differs from
`browser`, a `Media`-kind artifact is not resolved to the media subdirectory
(the source's `switch` sends `Media` to `browser`), refuting the claim's
`Media → media` mapping. -/
theorem resolveOutputDir_media_counterexample :
    resolveOutputDir ⟨["o"], ["b"], ["m"], ["s"]⟩ .Media
      ≠ NormalizedOutputOptions.media ⟨["o"], ["b"], ["m"], ["s"]⟩ := by
  decide

/-- C5 (amended): `writeResultFiles` resolves the destination directory from
the layout by artifact kind as Browser → browser, Media → browser (the
layout's `media` field is not consulted), Server → server, Root → the base
directory itself. -/
theorem resolveOutputDir_amended (opts : NormalizedOutputOptions) :
    resolveOutputDir opts .Browser = opts.browser
      ∧ resolveOutputDir opts .Media = opts.browser
      ∧ resolveOutputDir opts .Server = opts.server
      ∧ resolveOutputDir opts .Root = [] :=
  ⟨rfl, rfl, rfl, rfl⟩

/-- C10: every asset copy record is resolved under the browser subdirectory
(`path.join(browser, destination)`), regardless of the record's contents; in
particular, whenever the server (resp. media) subdirectory is a different
directory of the same depth, the copy's destination does not lie under it,
and when the browser subdirectory is nonempty the copy is not placed directly
in the base directory. -/
theorem assetDestPath_browser (opts : NormalizedOutputOptions)
    (a : BuildOutputAsset) :
    assetDestPath opts a = opts.browser ++ splitPath a.destination
      ∧ (assetDestPath opts a).take opts.browser.length = opts.browser
      ∧ (opts.server.length = opts.browser.length → opts.server ≠ opts.browser →
          (assetDestPath opts a).take opts.server.length ≠ opts.server)
      ∧ (opts.media.length = opts.browser.length → opts.media ≠ opts.browser →
          (assetDestPath opts a).take opts.media.length ≠ opts.media) := by
  have htake : (assetDestPath opts a).take opts.browser.length = opts.browser :=
    List.take_left ..
  refine ⟨rfl, htake, ?_, ?_⟩
  · intro hlen hne heq
    have hb : (assetDestPath opts a).take opts.server.length = opts.browser := by
      rw [hlen]; exact htake
    exact hne (heq.symm.trans hb)
  · intro hlen hne heq
    have hb : (assetDestPath opts a).take opts.media.length = opts.browser := by
      rw [hlen]; exact htake
    exact hne (heq.symm.trans hb)

/-- C10 witness at a concrete layout and copy record. -/
theorem assetDestPath_browser_witness :
    (((["s"] : List String).length = (["b"] : List String).length
        ∧ (["s"] : List String) ≠ ["b"]))
      ∧ (assetDestPath ⟨["o"], ["b"], ["m"], ["s"]⟩ ⟨"src", "x"⟩).take
          (["s"] : List String).length ≠ ["s"] :=
  ⟨⟨by decide, by decide⟩,
    (assetDestPath_browser ⟨["o"], ["b"], ["m"], ["s"]⟩ ⟨"src", "x"⟩).2.2.1
      (by decide) (by decide)⟩

/-- C3 counterexample: the clone of a data-backed artifact aliases the very
same buffer, so mutating the original's source buffer changes the clone's
`contents` (from `[0]` to `[1]`), refuting independent backing storage. -/
theorem clone_shares_buffer_counterexample :
    (createOutputFileFromData "p" 0 .Browser).clone.contents [[0]] = [0]
      ∧ (createOutputFileFromData "p" 0 .Browser).clone.contents
          (storeSet [[0]] 0 [1]) = [1] := by
  exact ⟨rfl, rfl⟩

/-- C3 (amended): `clone()` preserves `path`, `type`, `hash` and (in an
unchanged store) `contents` for every variant, and the text variant's clone
is store-independent; but the data-backed and converted variants' clones
read the same buffer reference as the original, so a mutation of the
original's buffer is visible through the clone. -/
theorem clone_preserves_amended (H : List Nat → String) (s : Store)
    (a : BuildOutputFile) :
    a.clone.path = a.path
      ∧ a.clone.type = a.type
      ∧ a.clone.hash H s = a.hash H s
      ∧ a.clone.contents s = a.contents s
      ∧ (∀ (p : String) (t : List Nat) (ty : BuildOutputFileType) (s2 : Store),
          (createOutputFileFromText p t ty).clone.contents s2 = utf8Encode t)
      ∧ (∀ (p : String) (r : Nat) (ty : BuildOutputFileType) (s2 : Store),
          (createOutputFileFromData p r ty).clone.contents s2 = storeGet s2 r)
      ∧ (∀ (f : OutputFile) (ty : BuildOutputFileType) (s2 : Store),
          (convertOutputFile f ty).clone.contents s2 = storeGet s2 f.contentsRef) := by
  refine ⟨?_, ?_, ?_, ?_, fun p t ty s2 => rfl, fun p r ty s2 => rfl,
    fun f ty s2 => rfl⟩ <;> cases a <;> rfl

/-- C2 counterexample: `convertOutputFile` copies the external bundler's
`hash` verbatim, so for an input file whose `hash` is not the digest of the
UTF-8 text form of its contents the produced artifact violates the claimed
contract (here the digest primitive is the constant function returning
`"aa"` while the stored hash is `"zz"`). -/
theorem convertOutputFile_hash_counterexample :
    BuildOutputFile.hash (fun _ => "aa") [[97]]
        (convertOutputFile ⟨"p", 0, "zz"⟩ .Browser)
      ≠ (fun _ => "aa" : List Nat → String)
          (utf8Encode (utf8Decode (BuildOutputFile.contents [[97]]
            (convertOutputFile ⟨"p", 0, "zz"⟩ .Browser)))) := by
  decide

/-- C2 (amended): artifacts built by `createOutputFileFromText` and
`createOutputFileFromData` have `hash = H(UTF-8 text form of contents)`, and
for pure-ASCII content this equals the digest recomputed directly from the
contents bytes; `convertOutputFile` instead copies the input file's `hash`
unchanged, so its artifact satisfies the digest contract only if the input
already did. -/
theorem outputFile_hash_amended (H : List Nat → String) (s : Store)
    (p : String) (t : List Nat) (r : Nat) (f : OutputFile)
    (ty : BuildOutputFileType)
    (ht : ∀ c ∈ t, c < 128) (hr : ∀ b ∈ storeGet s r, b < 128) :
    (createOutputFileFromText p t ty).hash H s
        = H (utf8Encode ((createOutputFileFromText p t ty).text s))
      ∧ (createOutputFileFromText p t ty).hash H s
        = H (utf8Encode (utf8Decode ((createOutputFileFromText p t ty).contents s)))
      ∧ (createOutputFileFromText p t ty).hash H s
        = H ((createOutputFileFromText p t ty).contents s)
      ∧ (createOutputFileFromData p r ty).hash H s
        = H (utf8Encode (utf8Decode ((createOutputFileFromData p r ty).contents s)))
      ∧ (createOutputFileFromData p r ty).hash H s
        = H ((createOutputFileFromData p r ty).contents s)
      ∧ (convertOutputFile f ty).hash H s = f.hash := by
  have henc : utf8Encode t = t := utf8Encode_ascii ht
  have hdec : utf8Decode (storeGet s r) = storeGet s r := utf8Decode_ascii hr
  refine ⟨rfl, ?_, rfl, rfl, ?_, rfl⟩
  · show H (utf8Encode t) = H (utf8Encode (utf8Decode (utf8Encode t)))
    rw [henc, utf8Decode_ascii ht, henc]
  · show H (utf8Encode (utf8Decode (storeGet s r))) = H (storeGet s r)
    rw [hdec, utf8Encode_ascii hr]

/-- C2 witness at concrete ASCII inputs. -/
theorem outputFile_hash_amended_witness :
    ((∀ c ∈ ([97] : List Nat), c < 128) ∧ (∀ b ∈ storeGet [[98]] 0, b < 128))
      ∧ (createOutputFileFromData "p" 0 .Browser).hash (fun _ => "h") [[98]]
        = (fun _ => "h" : List Nat → String)
            ((createOutputFileFromData "p" 0 .Browser).contents [[98]]) :=
  ⟨⟨by decide, by decide⟩,
    (outputFile_hash_amended (fun _ => "h") [[98]] "p" [97] 0 ⟨"q", 0, "z"⟩
      .Browser (by decide) (by decide)).2.2.2.2.1⟩

/-- C9: every wave of file operations of one `writeResultFiles` invocation
(artifact writes first, then asset copies, both fanned out by
`emitFilesToDisk`) is nonempty and holds at most `MAX_CONCURRENT_WRITES`
operations — so at most 64 file operations are ever in flight, since waves
never overlap — and the waves together process exactly the artifacts
followed by the copies, in order. -/
theorem writeOpSchedule_bounded (outputFiles : List BuildOutputFile)
    (assetFiles : List BuildOutputAsset) :
    (∀ w ∈ writeOpSchedule outputFiles assetFiles,
        0 < w.length ∧ w.length ≤ MAX_CONCURRENT_WRITES)
      ∧ (writeOpSchedule outputFiles assetFiles).flatten
        = outputFiles.map WriteOp.emitFile ++ assetFiles.map WriteOp.copyAsset := by
  constructor
  · intro w hw
    unfold writeOpSchedule at hw
    rcases List.mem_append.mp hw with h | h
    · exact chunkList_mem_bounds (by decide) _ w h
    · by_cases he : assetFiles.isEmpty
      · rw [if_pos he] at h
        cases h
      · rw [if_neg he] at h
        exact chunkList_mem_bounds (by decide) _ w h
  · unfold writeOpSchedule
    rw [List.flatten_append]
    by_cases he : assetFiles.isEmpty
    · rw [if_pos he, chunkList_flatten (by decide)]
      have hnil : assetFiles = [] := List.isEmpty_iff.mp he
      rw [hnil]
      simp
    · rw [if_neg he, chunkList_flatten (by decide), chunkList_flatten (by decide)]

/-- C9 witness at a concrete one-artifact schedule. -/
theorem writeOpSchedule_bounded_witness :
    ([WriteOp.emitFile (createOutputFileFromText "a" [] .Root)]
        ∈ writeOpSchedule [createOutputFileFromText "a" [] .Root] [])
      ∧ (0 < [WriteOp.emitFile (createOutputFileFromText "a" [] .Root)].length
          ∧ [WriteOp.emitFile (createOutputFileFromText "a" [] .Root)].length
              ≤ MAX_CONCURRENT_WRITES) :=
  ⟨by decide,
    (writeOpSchedule_bounded [createOutputFileFromText "a" [] .Root] []).1 _
      (by decide)⟩

/-- C4 counterexample: two artifacts of the same wave sharing one
previously-uncached directory each trigger their own `fs.mkdir` call (the
cache is only updated after the awaited `mkdir` resolves), so the call count
is 2 while the number of distinct containing directories is 1. -/
theorem mkdir_count_counterexample :
    (writeResultFilesMkdirCalls ⟨["o"], ["b"], ["m"], ["s"]⟩
        [createOutputFileFromText "d/x" [] .Browser,
          createOutputFileFromText "d/y" [] .Browser] []).length = 2
      ∧ (([createOutputFileFromText "d/x" [] .Browser,
            createOutputFileFromText "d/y" [] .Browser].map
          (fun f => pathDirname
            (artifactDestPath ⟨["o"], ["b"], ["m"], ["s"]⟩ f))).dedup).length
        = 1 := by
  decide

/-- C4 (amended): within one `writeResultFiles` invocation the
directory-creation call count equals the number of files whose containing
directory is uncached at their wave's launch; whenever no two files of the
same wave share a previously-uncached directory (files may freely share a
directory already cached by an earlier wave), this equals the number of
distinct containing directories among all artifacts and copies, and in
particular a directory created in an earlier wave is never created again. -/
theorem writeResultFiles_mkdir_count_amended (opts : NormalizedOutputOptions)
    (outputFiles : List BuildOutputFile) (assetFiles : List BuildOutputAsset)
    (hw : wavesFreshNodup ∅ (writeDirSchedule opts outputFiles assetFiles)
      = true) :
    (writeResultFilesMkdirCalls opts outputFiles assetFiles).length
      = ((outputFiles.map (fun f => pathDirname (artifactDestPath opts f))
          ++ assetFiles.map (fun a => pathDirname (assetDestPath opts a))).dedup).length := by
  unfold writeResultFilesMkdirCalls
  rw [mkdirCallsFrom_length _ ∅ hw, Finset.sdiff_empty]
  have hflat : (writeDirSchedule opts outputFiles assetFiles).flatten
      = outputFiles.map (fun f => pathDirname (artifactDestPath opts f))
        ++ assetFiles.map (fun a => pathDirname (assetDestPath opts a)) := by
    unfold writeDirSchedule
    rw [List.flatten_append]
    by_cases he : assetFiles.isEmpty
    · rw [if_pos he, chunkList_flatten (by decide), List.isEmpty_iff.mp he]
      simp
    · rw [if_neg he, chunkList_flatten (by decide), chunkList_flatten (by decide)]
  rw [hflat, List.card_toFinset]

/-- C4 witness: one artifact wave creates and caches the directory, and two
asset copies of a later wave share that already-cached directory — the
amended condition holds (no wave has two files sharing an uncached
directory) and the creation-call count equals the distinct-directory
count 1. -/
theorem writeResultFiles_mkdir_count_amended_witness :
    (wavesFreshNodup ∅ (writeDirSchedule ⟨["o"], ["b"], ["m"], ["s"]⟩
        [createOutputFileFromText "d/x" [] .Browser]
        [⟨"s1", "d/y"⟩, ⟨"s2", "d/z"⟩]) = true)
      ∧ (writeResultFilesMkdirCalls ⟨["o"], ["b"], ["m"], ["s"]⟩
          [createOutputFileFromText "d/x" [] .Browser]
          [⟨"s1", "d/y"⟩, ⟨"s2", "d/z"⟩]).length
        = (([createOutputFileFromText "d/x" [] .Browser].map
            (fun f => pathDirname
              (artifactDestPath ⟨["o"], ["b"], ["m"], ["s"]⟩ f))
            ++ [(⟨"s1", "d/y"⟩ : BuildOutputAsset), ⟨"s2", "d/z"⟩].map
              (fun a => pathDirname
                (assetDestPath ⟨["o"], ["b"], ["m"], ["s"]⟩ a))).dedup).length :=
  ⟨by decide, writeResultFiles_mkdir_count_amended _ _ _ (by decide)⟩

theorem isSome_mapLookup_mapSet (acc : List (String × Nat)) (k p : String)
    (v : Nat) :
    (mapLookup (mapSet acc k v) p).isSome = true
      ↔ (p = k ∨ (mapLookup acc p).isSome = true) := by
  rw [mapLookup_mapSet]
  by_cases h : p = k <;> simp [h]

theorem calcSizesGo_keys {ε : Type} (compress : List Nat → Except ε Nat)
    (s : Store) :
    ∀ (files : List OutputFile) (acc m : List (String × Nat)),
      calcSizesGo compress s files acc = .ok m → ∀ p : String,
        (mapLookup m p).isSome = true ↔
          ((mapLookup acc p).isSome = true
            ∨ ∃ f ∈ files, f.path = p ∧ hasWebExt f.path = true) := by
  intro files
  induction files with
  | nil =>
    intro acc m h p
    simp only [calcSizesGo, Except.ok.injEq] at h
    subst h
    simp
  | cons f rest ih =>
    intro acc m h p
    cases hhe : hasWebExt f.path with
    | false =>
      have hred : calcSizesGo compress s (f :: rest) acc
          = calcSizesGo compress s rest acc := by
        simp [calcSizesGo, hhe]
      rw [hred] at h
      rw [ih acc m h p]
      constructor
      · rintro (ha | ⟨g, hg, hgp, hge⟩)
        · exact Or.inl ha
        · exact Or.inr ⟨g, List.mem_cons_of_mem _ hg, hgp, hge⟩
      · rintro (ha | ⟨g, hg, hgp, hge⟩)
        · exact Or.inl ha
        · rcases List.mem_cons.mp hg with rfl | hg2
          · rw [hhe] at hge; cases hge
          · exact Or.inr ⟨g, hg2, hgp, hge⟩
    | true =>
      by_cases hsm : (storeGet s f.contentsRef).length < 1024
      · have hred : calcSizesGo compress s (f :: rest) acc
            = calcSizesGo compress s rest
                (mapSet acc f.path (storeGet s f.contentsRef).length) := by
          simp [calcSizesGo, hhe, hsm]
        rw [hred] at h
        rw [ih _ m h p, isSome_mapLookup_mapSet, List.exists_mem_cons_iff]
        simp only [hhe, and_true]
        constructor
        · rintro ((hp | ha) | hr)
          · exact Or.inr (Or.inl hp.symm)
          · exact Or.inl ha
          · exact Or.inr (Or.inr hr)
        · rintro (ha | (hp | hr))
          · exact Or.inl (Or.inr ha)
          · exact Or.inl (Or.inl hp.symm)
          · exact Or.inr hr
      · cases hc : compress (storeGet s f.contentsRef) with
        | error e =>
          have hred : calcSizesGo compress s (f :: rest) acc = .error e := by
            simp [calcSizesGo, hhe, hsm, hc]
          rw [hred] at h
          cases h
        | ok n =>
          have hred : calcSizesGo compress s (f :: rest) acc
              = calcSizesGo compress s rest (mapSet acc f.path n) := by
            simp [calcSizesGo, hhe, hsm, hc]
          rw [hred] at h
          rw [ih _ m h p, isSome_mapLookup_mapSet, List.exists_mem_cons_iff]
          simp only [hhe, and_true]
          constructor
          · rintro ((hp | ha) | hr)
            · exact Or.inr (Or.inl hp.symm)
            · exact Or.inl ha
            · exact Or.inr (Or.inr hr)
          · rintro (ha | (hp | hr))
            · exact Or.inl (Or.inr ha)
            · exact Or.inl (Or.inl hp.symm)
            · exact Or.inr hr

/-- C6: when `calculateEstimatedTransferSizes` returns a map, its key set is
exactly the paths of the input files that end in `.js` or `.css` — no other
path appears and no qualifying path is missing. -/
theorem calculateEstimatedTransferSizes_keys {ε : Type}
    (compress : List Nat → Except ε Nat) (s : Store) (files : List OutputFile)
    (m : List (String × Nat))
    (h : calculateEstimatedTransferSizes compress s files = .ok m)
    (p : String) :
    (mapLookup m p).isSome = true
      ↔ ∃ f ∈ files, f.path = p ∧ hasWebExt f.path = true := by
  have hk := calcSizesGo_keys compress s files [] m h p
  simpa [mapLookup] using hk

/-- C6 witness at a concrete run. -/
theorem calculateEstimatedTransferSizes_keys_witness :
    (calculateEstimatedTransferSizes (fun _ => (.ok 10 : Except String Nat))
        [[1, 2, 3]] [⟨"a.js", 0, "h"⟩] = .ok [("a.js", 3)])
      ∧ ((mapLookup [("a.js", 3)] "a.js").isSome = true
          ↔ ∃ f ∈ [(⟨"a.js", 0, "h"⟩ : OutputFile)],
              f.path = "a.js" ∧ hasWebExt f.path = true) :=
  ⟨by decide,
    calculateEstimatedTransferSizes_keys (fun _ => (.ok 10 : Except String Nat))
      [[1, 2, 3]] [⟨"a.js", 0, "h"⟩] [("a.js", 3)] (by decide) "a.js"⟩

theorem calcSizesGo_lookup_preserved {ε : Type}
    (compress : List Nat → Except ε Nat) (s : Store) (q : String) (v : Nat) :
    ∀ (files : List OutputFile) (acc m : List (String × Nat)),
      calcSizesGo compress s files acc = .ok m →
      mapLookup acc q = some v →
      (∀ g ∈ files, g.path = q →
        ((storeGet s g.contentsRef).length < 1024
          ∧ (storeGet s g.contentsRef).length = v)) →
      mapLookup m q = some v := by
  intro files
  induction files with
  | nil =>
    intro acc m h hacc _
    simp only [calcSizesGo, Except.ok.injEq] at h
    subst h
    exact hacc
  | cons g rest ih =>
    intro acc m h hacc hP
    cases hhe : hasWebExt g.path with
    | false =>
      have hred : calcSizesGo compress s (g :: rest) acc
          = calcSizesGo compress s rest acc := by
        simp [calcSizesGo, hhe]
      rw [hred] at h
      exact ih acc m h hacc fun g2 hg2 => hP g2 (List.mem_cons_of_mem _ hg2)
    | true =>
      by_cases hsm : (storeGet s g.contentsRef).length < 1024
      · have hred : calcSizesGo compress s (g :: rest) acc
            = calcSizesGo compress s rest
                (mapSet acc g.path (storeGet s g.contentsRef).length) := by
          simp [calcSizesGo, hhe, hsm]
        rw [hred] at h
        refine ih _ m h ?_ fun g2 hg2 => hP g2 (List.mem_cons_of_mem _ hg2)
        rw [mapLookup_mapSet]
        by_cases hq : q = g.path
        · rw [if_pos hq, (hP g (List.mem_cons_self _ _) hq.symm).2]
        · rw [if_neg hq]
          exact hacc
      · by_cases hgq : g.path = q
        · exact absurd (hP g (List.mem_cons_self _ _) hgq).1 hsm
        · cases hc : compress (storeGet s g.contentsRef) with
          | error e =>
            have hred : calcSizesGo compress s (g :: rest) acc = .error e := by
              simp [calcSizesGo, hhe, hsm, hc]
            rw [hred] at h
            cases h
          | ok n =>
            have hred : calcSizesGo compress s (g :: rest) acc
                = calcSizesGo compress s rest (mapSet acc g.path n) := by
              simp [calcSizesGo, hhe, hsm, hc]
            rw [hred] at h
            refine ih _ m h ?_ fun g2 hg2 => hP g2 (List.mem_cons_of_mem _ hg2)
            rw [mapLookup_mapSet, if_neg fun gq => hgq gq.symm]
            exact hacc

theorem calcSizesGo_small_file {ε : Type}
    (compress : List Nat → Except ε Nat) (s : Store) (f : OutputFile)
    (hext : hasWebExt f.path = true)
    (hsmall : (storeGet s f.contentsRef).length < 1024) :
    ∀ (files : List OutputFile) (acc m : List (String × Nat)),
      calcSizesGo compress s files acc = .ok m →
      f ∈ files →
      (∀ g ∈ files, g.path = f.path → g = f) →
      mapLookup m f.path = some (storeGet s f.contentsRef).length := by
  intro files
  induction files with
  | nil =>
    intro acc m _ hmem
    cases hmem
  | cons g rest ih =>
    intro acc m h hmem huniq
    rcases List.mem_cons.mp hmem with rfl | hmem2
    · have hred : calcSizesGo compress s (f :: rest) acc
          = calcSizesGo compress s rest
              (mapSet acc f.path (storeGet s f.contentsRef).length) := by
        simp [calcSizesGo, hext, hsmall]
      rw [hred] at h
      refine calcSizesGo_lookup_preserved compress s f.path _ rest _ m h ?_ ?_
      · rw [mapLookup_mapSet, if_pos rfl]
      · intro g2 hg2 hg2p
        have hg2f : g2 = f := huniq g2 (List.mem_cons_of_mem _ hg2) hg2p
        subst hg2f
        exact ⟨hsmall, rfl⟩
    · have huniq2 : ∀ g2 ∈ rest, g2.path = f.path → g2 = f :=
        fun g2 hg2 => huniq g2 (List.mem_cons_of_mem _ hg2)
      cases hhe : hasWebExt g.path with
      | false =>
        have hred : calcSizesGo compress s (g :: rest) acc
            = calcSizesGo compress s rest acc := by
          simp [calcSizesGo, hhe]
        rw [hred] at h
        exact ih acc m h hmem2 huniq2
      | true =>
        by_cases hsm : (storeGet s g.contentsRef).length < 1024
        · have hred : calcSizesGo compress s (g :: rest) acc
              = calcSizesGo compress s rest
                  (mapSet acc g.path (storeGet s g.contentsRef).length) := by
            simp [calcSizesGo, hhe, hsm]
          rw [hred] at h
          exact ih _ m h hmem2 huniq2
        · cases hc : compress (storeGet s g.contentsRef) with
          | error e =>
            have hred : calcSizesGo compress s (g :: rest) acc = .error e := by
              simp [calcSizesGo, hhe, hsm, hc]
            rw [hred] at h
            cases h
          | ok n =>
            have hred : calcSizesGo compress s (g :: rest) acc
                = calcSizesGo compress s rest (mapSet acc g.path n) := by
              simp [calcSizesGo, hhe, hsm, hc]
            rw [hred] at h
            exact ih _ m h hmem2 huniq2

/-- C7: a qualifying (`.js`/`.css`) file whose content is strictly shorter
than 1024 bytes is estimated at exactly its content length — no compression
is consulted for it (its entry is written before `compress` could even be
invoked on it, directly from the length). -/
theorem calculateEstimatedTransferSizes_small_file {ε : Type}
    (compress : List Nat → Except ε Nat) (s : Store) (files : List OutputFile)
    (m : List (String × Nat)) (f : OutputFile)
    (hok : calculateEstimatedTransferSizes compress s files = .ok m)
    (hmem : f ∈ files) (hext : hasWebExt f.path = true)
    (hsmall : (storeGet s f.contentsRef).length < 1024)
    (huniq : ∀ g ∈ files, g.path = f.path → g = f) :
    mapLookup m f.path = some (storeGet s f.contentsRef).length :=
  calcSizesGo_small_file compress s f hext hsmall files [] m hok hmem huniq

/-- C7 witness: a 2-byte script file is estimated at exactly 2. -/
theorem calculateEstimatedTransferSizes_small_file_witness :
    (calculateEstimatedTransferSizes (fun _ => (.ok 10 : Except String Nat))
        [[1, 2]] [⟨"a.js", 0, "h"⟩] = .ok [("a.js", 2)])
      ∧ mapLookup [("a.js", 2)] "a.js" = some (storeGet [[1, 2]] 0).length :=
  ⟨by decide,
    calculateEstimatedTransferSizes_small_file
      (fun _ => (.ok 10 : Except String Nat))
      [[1, 2]] [⟨"a.js", 0, "h"⟩] [("a.js", 2)] ⟨"a.js", 0, "h"⟩ (by decide)
      (by decide) (by decide) (by decide) (by decide)⟩

theorem calcSizesGo_error {ε : Type} (compress : List Nat → Except ε Nat)
    (s : Store) :
    ∀ (files : List OutputFile) (acc : List (String × Nat)),
      (∃ f ∈ files, hasWebExt f.path = true
          ∧ 1024 ≤ (storeGet s f.contentsRef).length
          ∧ ∃ e0, compress (storeGet s f.contentsRef) = .error e0) →
      ∃ e, calcSizesGo compress s files acc = .error e
        ∧ ∃ f ∈ files, hasWebExt f.path = true
            ∧ 1024 ≤ (storeGet s f.contentsRef).length
            ∧ compress (storeGet s f.contentsRef) = .error e := by
  intro files
  induction files with
  | nil =>
    rintro acc ⟨f, hf, _⟩
    cases hf
  | cons g rest ih =>
    rintro acc ⟨f, hf, hfe, hfb, e0, hfc⟩
    cases hhe : hasWebExt g.path with
    | false =>
      have hred : calcSizesGo compress s (g :: rest) acc
          = calcSizesGo compress s rest acc := by
        simp [calcSizesGo, hhe]
      rcases List.mem_cons.mp hf with rfl | hf2
      · rw [hhe] at hfe
        cases hfe
      · obtain ⟨e, he, f2, hf3, hex2, hbig2, herr2⟩ :=
          ih acc ⟨f, hf2, hfe, hfb, e0, hfc⟩
        exact ⟨e, by rw [hred]; exact he,
          f2, List.mem_cons_of_mem _ hf3, hex2, hbig2, herr2⟩
    | true =>
      by_cases hsm : (storeGet s g.contentsRef).length < 1024
      · have hred : calcSizesGo compress s (g :: rest) acc
            = calcSizesGo compress s rest
                (mapSet acc g.path (storeGet s g.contentsRef).length) := by
          simp [calcSizesGo, hhe, hsm]
        rcases List.mem_cons.mp hf with rfl | hf2
        · omega
        · obtain ⟨e, he, f2, hf3, hex2, hbig2, herr2⟩ :=
            ih _ ⟨f, hf2, hfe, hfb, e0, hfc⟩
          exact ⟨e, by rw [hred]; exact he,
            f2, List.mem_cons_of_mem _ hf3, hex2, hbig2, herr2⟩
      · cases hc : compress (storeGet s g.contentsRef) with
        | error e =>
          have hred : calcSizesGo compress s (g :: rest) acc = .error e := by
            simp [calcSizesGo, hhe, hsm, hc]
          exact ⟨e, hred, g, List.mem_cons_self _ _, hhe, by omega, hc⟩
        | ok n =>
          have hred : calcSizesGo compress s (g :: rest) acc
              = calcSizesGo compress s rest (mapSet acc g.path n) := by
            simp [calcSizesGo, hhe, hsm, hc]
          rcases List.mem_cons.mp hf with rfl | hf2
          · rw [hc] at hfc
            cases hfc
          · obtain ⟨e, he, f2, hf3, hex2, hbig2, herr2⟩ :=
              ih _ ⟨f, hf2, hfe, hfb, e0, hfc⟩
            exact ⟨e, by rw [hred]; exact he,
              f2, List.mem_cons_of_mem _ hf3, hex2, hbig2, herr2⟩

/-- C8: if the compression of any single qualifying artifact fails, the whole
estimate fails with a propagated underlying compression error — the result is
an error, not a (partial) map. -/
theorem calculateEstimatedTransferSizes_error {ε : Type}
    (compress : List Nat → Except ε Nat) (s : Store) (files : List OutputFile)
    (hex : ∃ f ∈ files, hasWebExt f.path = true
        ∧ 1024 ≤ (storeGet s f.contentsRef).length
        ∧ ∃ e0, compress (storeGet s f.contentsRef) = .error e0) :
    ∃ e, calculateEstimatedTransferSizes compress s files = .error e
      ∧ ∃ f ∈ files, hasWebExt f.path = true
          ∧ 1024 ≤ (storeGet s f.contentsRef).length
          ∧ compress (storeGet s f.contentsRef) = .error e :=
  calcSizesGo_error compress s files [] hex

/-- C8 witness: a failing compression of a 1024-byte script fails the whole
estimate. -/
theorem calculateEstimatedTransferSizes_error_witness :
    ∃ e, calculateEstimatedTransferSizes
        (fun _ => (.error "boom" : Except String Nat)) [List.replicate 1024 0]
        [⟨"a.js", 0, "h"⟩] = .error e
      ∧ ∃ f ∈ [(⟨"a.js", 0, "h"⟩ : OutputFile)], hasWebExt f.path = true
          ∧ 1024 ≤ (storeGet [List.replicate 1024 0] f.contentsRef).length
          ∧ (fun _ => (Except.error "boom" : Except String Nat))
              (storeGet [List.replicate 1024 0] f.contentsRef) = .error e :=
  calculateEstimatedTransferSizes_error
    (fun _ => (.error "boom" : Except String Nat))
    [List.replicate 1024 0] [⟨"a.js", 0, "h"⟩]
    ⟨⟨"a.js", 0, "h"⟩, List.mem_cons_self _ _, by decide,
      by rw [show storeGet [List.replicate 1024 (0 : Nat)] 0
            = List.replicate 1024 0 from rfl, List.length_replicate],
      "boom", rfl⟩

theorem chunkList_130 {α : Type} (xs : List α) (h : xs.length = 130) :
    chunkList 64 xs
      = [xs.take 64, (xs.drop 64).take 64, (xs.drop 64).drop 64] := by
  have h1 : xs ≠ [] := by
    intro hh
    rw [hh] at h
    simp at h
  have hd1 : (xs.drop 64).length = 66 := by rw [List.length_drop, h]
  have hd2 : ((xs.drop 64).drop 64).length = 2 := by rw [List.length_drop, hd1]
  rw [chunkList_eq_cons 64 (by omega) xs h1,
    chunkList_eq_cons 64 (by omega) _
      (by intro hh; rw [hh] at hd1; simp at hd1),
    chunkList_eq_cons 64 (by omega) _
      (by intro hh; rw [hh] at hd2; simp at hd2)]
  have ht3 : ((xs.drop 64).drop 64).take 64 = (xs.drop 64).drop 64 :=
    List.take_of_length_le (by rw [hd2]; omega)
  have hd3 : ((xs.drop 64).drop 64).drop 64 = [] :=
    List.drop_eq_nil_of_le (by rw [hd2]; omega)
  rw [ht3, hd3]
  rfl

theorem runWavesTimed_cons_fail (t : Nat) (w : List AsyncTask)
    (ws : List (List AsyncTask)) (h : waveHasFailure w = true) :
    runWavesTimed t (w :: ws)
      = ⟨[w], [w.map fun tk => t + tk.dur], .error (t + waveFailDur w)⟩ := by
  simp [runWavesTimed, h]

theorem runWavesTimed_cons_ok (t : Nat) (w : List AsyncTask)
    (ws : List (List AsyncTask)) (h : waveHasFailure w = false) :
    runWavesTimed t (w :: ws)
      = ⟨w :: (runWavesTimed (t + waveMaxDur w) ws).launched,
          (w.map fun tk => t + tk.dur)
            :: (runWavesTimed (t + waveMaxDur w) ws).settleTimes,
          (runWavesTimed (t + waveMaxDur w) ws).outcome⟩ := by
  simp [runWavesTimed, h]

theorem runWavesTimed_nil (t : Nat) :
    runWavesTimed t [] = ⟨[], [], .ok t⟩ := rfl

/-- C1 (amended): over 130 items with limit 64 the fan-out launches waves of
sizes 64, 64 and 2 when every action resolves; if only the action of item 70
(1-based) rejects, wave 1 settles completely before wave 2 launches, wave 3
is never started, and the operation rejects at the instant the failing task
settles (`Promise.all` rejects at the first rejection), which may be before
other non-failing wave-2 tasks have settled. -/
theorem emitFilesToDisk_waves_amended :
    (∀ tasks : List AsyncTask, tasks.length = 130 →
        (∀ tk ∈ tasks, tk.ok = true) →
        (emitFilesToDisk tasks).launched.map List.length = [64, 64, 2])
      ∧ (∀ (pre : List AsyncTask) (bad : AsyncTask) (post : List AsyncTask),
          pre.length = 69 → post.length = 60 →
          (∀ tk ∈ pre, tk.ok = true) → bad.ok = false →
          (∀ tk ∈ post, tk.ok = true) →
          (emitFilesToDisk (pre ++ bad :: post)).launched.map List.length
              = [64, 64]
            ∧ (emitFilesToDisk (pre ++ bad :: post)).outcome
              = .error (waveMaxDur ((pre ++ bad :: post).take 64) + bad.dur)
            ∧ ∀ u ∈ (emitFilesToDisk (pre ++ bad :: post)).settleTimes.headD [],
                u ≤ waveMaxDur ((pre ++ bad :: post).take 64)) := by
  constructor
  · intro tasks h130 hok
    have hw := chunkList_130 tasks h130
    have hA : waveHasFailure (tasks.take 64) = false :=
      waveHasFailure_eq_false fun tk htk => hok tk (List.take_subset _ _ htk)
    have hB : waveHasFailure ((tasks.drop 64).take 64) = false :=
      waveHasFailure_eq_false fun tk htk =>
        hok tk (List.drop_subset _ _ (List.take_subset _ _ htk))
    have hC : waveHasFailure ((tasks.drop 64).drop 64) = false :=
      waveHasFailure_eq_false fun tk htk =>
        hok tk (List.drop_subset _ _ (List.drop_subset _ _ htk))
    unfold emitFilesToDisk
    rw [show MAX_CONCURRENT_WRITES = 64 from rfl, hw,
      runWavesTimed_cons_ok _ _ _ hA, runWavesTimed_cons_ok _ _ _ hB,
      runWavesTimed_cons_ok _ _ _ hC, runWavesTimed_nil]
    show [(tasks.take 64).length, ((tasks.drop 64).take 64).length,
        ((tasks.drop 64).drop 64).length] = [64, 64, 2]
    rw [List.length_take, List.length_take, List.length_drop,
      List.length_drop, List.length_drop, h130]
    decide
  · intro pre bad post hpre hpost hpreok hbad hpostok
    have h130 : (pre ++ bad :: post).length = 130 := by
      simp [hpre, hpost]
    have hw := chunkList_130 _ h130
    have hAeq : (pre ++ bad :: post).take 64 = pre.take 64 :=
      List.take_append_of_le_length (by omega)
    have hAfail : waveHasFailure ((pre ++ bad :: post).take 64) = false := by
      rw [hAeq]
      exact waveHasFailure_eq_false fun tk htk =>
        hpreok tk (List.take_subset _ _ htk)
    have hdeq : (pre ++ bad :: post).drop 64 = pre.drop 64 ++ bad :: post :=
      List.drop_append_of_le_length (by omega)
    have hBeq : ((pre ++ bad :: post).drop 64).take 64
        = pre.drop 64 ++ bad :: post.take 58 := by
      rw [hdeq, List.take_append_eq_append_take,
        List.take_of_length_le (by rw [List.length_drop, hpre]; omega)]
      congr 1
      rw [List.length_drop, hpre]
      rfl
    have hbadB : bad ∈ ((pre ++ bad :: post).drop 64).take 64 := by
      rw [hBeq]
      exact List.mem_append_right _ (List.mem_cons_self _ _)
    have hBfail :
        waveHasFailure (((pre ++ bad :: post).drop 64).take 64) = true := by
      unfold waveHasFailure
      rw [List.any_eq_true]
      exact ⟨bad, hbadB, by simp [hbad]⟩
    have hfilter : (((pre ++ bad :: post).drop 64).take 64).filter
        (fun tk => !tk.ok) = [bad] := by
      rw [hBeq, List.filter_append,
        List.filter_eq_nil_iff.mpr fun tk htk => by
          simp [hpreok tk (List.drop_subset _ _ htk)],
        List.filter_cons_of_pos (by simp [hbad]),
        List.filter_eq_nil_iff.mpr fun tk htk => by
          simp [hpostok tk (List.take_subset _ _ htk)]]
      rfl
    have hfaildur :
        waveFailDur (((pre ++ bad :: post).drop 64).take 64) = bad.dur := by
      unfold waveFailDur
      rw [hfilter]
      rfl
    have hAlen : ((pre ++ bad :: post).take 64).length = 64 := by
      rw [List.length_take, h130]
      decide
    have hBlen : (((pre ++ bad :: post).drop 64).take 64).length = 64 := by
      rw [List.length_take, List.length_drop, h130]
      decide
    have htrace : emitFilesToDisk (pre ++ bad :: post)
        = ⟨[(pre ++ bad :: post).take 64,
              ((pre ++ bad :: post).drop 64).take 64],
            [((pre ++ bad :: post).take 64).map fun tk => 0 + tk.dur,
              (((pre ++ bad :: post).drop 64).take 64).map fun tk =>
                0 + waveMaxDur ((pre ++ bad :: post).take 64) + tk.dur],
            .error (0 + waveMaxDur ((pre ++ bad :: post).take 64)
              + waveFailDur (((pre ++ bad :: post).drop 64).take 64))⟩ := by
      unfold emitFilesToDisk
      rw [show MAX_CONCURRENT_WRITES = 64 from rfl, hw,
        runWavesTimed_cons_ok _ _ _ hAfail, runWavesTimed_cons_fail _ _ _ hBfail]
    refine ⟨?_, ?_, ?_⟩
    · rw [htrace]
      show [((pre ++ bad :: post).take 64).length,
          (((pre ++ bad :: post).drop 64).take 64).length] = [64, 64]
      rw [hAlen, hBlen]
    · rw [htrace]
      show Except.error (0 + waveMaxDur ((pre ++ bad :: post).take 64)
          + waveFailDur (((pre ++ bad :: post).drop 64).take 64)) = _
      rw [hfaildur, Nat.zero_add]
    · rw [htrace]
      intro u hu
      rw [List.headD_cons] at hu
      rcases List.mem_map.mp hu with ⟨tk, htk, rfl⟩
      have := dur_le_waveMaxDur htk
      omega

set_option maxRecDepth 8000 in
/-- C1 witness for the all-resolving scenario over 130 items. -/
theorem emitFilesToDisk_waves_amended_witness :
    (List.replicate 130 (⟨1, true⟩ : AsyncTask)).length = 130
      ∧ (emitFilesToDisk (List.replicate 130 ⟨1, true⟩)).launched.map
          List.length = [64, 64, 2] :=
  ⟨by decide,
    emitFilesToDisk_waves_amended.1 (List.replicate 130 ⟨1, true⟩) (by decide)
      (by decide)⟩

set_option maxRecDepth 8000 in
/-- C1 counterexample: with 130 items where item 70 (1-based) rejects after
1 tick and item 71 resolves after 2 ticks, the operation reports failure at
time 2 while item 71 — a non-failing launched task of wave 2 — settles only
at time 3; hence not all non-failing tasks of waves 1 and 2 settle before
the operation reports failure. -/
theorem emitFilesToDisk_settle_counterexample :
    (emitFilesToDisk (List.replicate 69 ⟨1, true⟩ ++ ⟨1, false⟩ :: ⟨2, true⟩
        :: List.replicate 59 (⟨1, true⟩ : AsyncTask))).outcome
        = .error 2
      ∧ claimSettleCheck (emitFilesToDisk (List.replicate 69 ⟨1, true⟩
          ++ ⟨1, false⟩ :: ⟨2, true⟩
          :: List.replicate 59 (⟨1, true⟩ : AsyncTask))) = false := by
  decide
